import Mathlib

/-!
Formal model of the arxiv-elasticsearch ingestion pipeline
(`scripts/download_dataset.py`, `scripts/generate_embeddings.py`,
`scripts/ingest_data.py`, `scripts/setup_snapshots.py`).

Each definition is a shallow embedding of the corresponding Python
function; external collaborators (the embedding model, the
Elasticsearch client) are modelled as explicit oracle parameters, and
each theorem settles one claim about the pipeline.
-/

/-- Python `range(0, stop, step)` for a non-negative `stop` and positive
`step`: the eager list `[0, step, 2*step, ...]` of all multiples of
`step` below `stop`.  (For `step = 0` Python raises; here the list is
empty, and every theorem that needs it assumes `0 < step`.) -/
def pyRange (stop step : Nat) : List Nat :=
  (List.range ((stop + step - 1) / step)).map (· * step)

/-- The batching step shared by `generate_embeddings` (line 84:
`for i in range(0, len(abstracts), batch_size): batch = abstracts[i:i + batch_size]`)
and `bulk_index_papers` (line 187:
`for i in range(0, len(papers), batch_size): batch = papers[i:i + batch_size]`):
the slice `xs[i:i+b]` is `(xs.drop i).take b`. -/
def sliceBatches (xs : List α) (b : Nat) : List (List α) :=
  (pyRange xs.length b).map (fun i => (xs.drop i).take b)

theorem pyRange_zero (step : Nat) : pyRange 0 step = [] := by
  have h : (0 + step - 1) / step = 0 := by
    rcases Nat.eq_zero_or_pos step with h | h
    · subst h; rfl
    · exact Nat.div_eq_of_lt (by omega)
  rw [pyRange, h]
  rfl

theorem sliceBatches_nil (b : Nat) : sliceBatches ([] : List α) b = [] := by
  rw [sliceBatches, List.length_nil, pyRange_zero]
  rfl

theorem sliceBatches_cons (xs : List α) (b : Nat) (hb : 0 < b) (hx : xs ≠ []) :
    sliceBatches xs b = xs.take b :: sliceBatches (xs.drop b) b := by
  have hn : 0 < xs.length := List.length_pos.mpr hx
  have hcount : (xs.length + b - 1) / b = ((xs.length - b) + b - 1) / b + 1 := by
    rcases le_or_lt b xs.length with hle | hlt
    · have h1 : xs.length - b + b - 1 = xs.length - 1 := by omega
      have h2 : xs.length + b - 1 = (xs.length - 1) + b := by omega
      rw [h1, h2, Nat.add_div_right _ hb]
    · have h1 : xs.length - b + b - 1 = b - 1 := by omega
      have h2 : (b - 1) / b = 0 := Nat.div_eq_of_lt (by omega)
      rw [h1, h2]
      refine Nat.div_eq_of_lt_le ?_ ?_ <;> omega
  rw [sliceBatches, sliceBatches, pyRange, pyRange, List.length_drop, hcount,
    List.range_succ_eq_map]
  simp only [List.map_cons, List.map_map, Nat.zero_mul, List.drop_zero]
  congr 1
  apply List.map_congr_left
  intro j hj
  simp only [Function.comp_apply]
  rw [List.drop_drop]
  have hsucc : Nat.succ j = j + 1 := rfl
  have harith : Nat.succ j * b = b + j * b := by rw [hsucc]; ring
  rw [harith]

theorem sliceBatches_ne_nil (xs : List α) (b : Nat) (hb : 0 < b) (hx : xs ≠ []) :
    sliceBatches xs b ≠ [] := by
  rw [sliceBatches_cons xs b hb hx]
  simp

theorem sliceBatches_flatten (xs : List α) (b : Nat) (hb : 0 < b) :
    (sliceBatches xs b).flatten = xs := by
  by_cases hx : xs = []
  · subst hx
    rw [sliceBatches_nil]
    rfl
  · rw [sliceBatches_cons xs b hb hx, List.flatten_cons,
      sliceBatches_flatten (xs.drop b) b hb]
    exact List.take_append_drop b xs
termination_by xs.length
decreasing_by
  simp only [List.length_drop]
  have := List.length_pos.mpr hx
  omega

theorem sliceBatches_length (xs : List α) (b : Nat) (hb : 0 < b) :
    (sliceBatches xs b).length = (xs.length + b - 1) / b := by
  simp [sliceBatches, pyRange]

theorem sliceBatches_dropLast (xs : List α) (b : Nat) (hb : 0 < b) :
    ∀ l ∈ (sliceBatches xs b).dropLast, l.length = b := by
  by_cases hx : xs = []
  · subst hx
    rw [sliceBatches_nil]
    intro l hl
    simp at hl
  · rw [sliceBatches_cons xs b hb hx]
    by_cases hd : xs.drop b = []
    · rw [hd, sliceBatches_nil]
      intro l hl
      simp at hl
    · rw [List.dropLast_cons_of_ne_nil (sliceBatches_ne_nil _ b hb hd)]
      intro l hl
      rcases List.mem_cons.mp hl with h | h
      · subst h
        have hble : b ≤ xs.length := by
          by_contra hc
          push_neg at hc
          exact hd (List.drop_eq_nil_of_le (by omega))
        rw [List.length_take]
        omega
      · exact sliceBatches_dropLast (xs.drop b) b hb l h
termination_by xs.length
decreasing_by
  simp only [List.length_drop]
  have := List.length_pos.mpr hx
  omega

theorem getLast?_cons_ne_nil (a : α) (l : List α) (h : l ≠ []) :
    (a :: l).getLast? = l.getLast? := by
  cases l with
  | nil => exact absurd rfl h
  | cons b t => exact List.getLast?_cons_cons

theorem sliceBatches_getLast (xs : List α) (b : Nat) (hb : 0 < b) :
    ∀ l, (sliceBatches xs b).getLast? = some l →
      l.length = if xs.length % b = 0 then b else xs.length % b := by
  by_cases hx : xs = []
  · subst hx
    rw [sliceBatches_nil]
    intro l hl
    simp at hl
  · rw [sliceBatches_cons xs b hb hx]
    have hn : 0 < xs.length := List.length_pos.mpr hx
    by_cases hd : xs.drop b = []
    · rw [hd, sliceBatches_nil]
      intro l hl
      simp only [List.getLast?_singleton, Option.some.injEq] at hl
      subst hl
      have hle : xs.length ≤ b := by
        by_contra hc
        push_neg at hc
        have := List.length_drop b xs
        rw [hd] at this
        simp at this
        omega
      rw [List.length_take]
      rcases Nat.lt_or_ge xs.length b with h | h
      · rw [Nat.mod_eq_of_lt h]
        have hne : ¬xs.length = 0 := by omega
        simp only [hne, if_false]
        omega
      · have heq : xs.length = b := by omega
        rw [heq]
        simp
    · rw [getLast?_cons_ne_nil _ _ (sliceBatches_ne_nil _ b hb hd)]
      intro l hl
      have hble : b ≤ xs.length := by
        by_contra hc
        push_neg at hc
        exact hd (List.drop_eq_nil_of_le (by omega))
      have hrec := sliceBatches_getLast (xs.drop b) b hb l hl
      rw [List.length_drop] at hrec
      rw [← Nat.mod_eq_sub_mod hble] at hrec
      exact hrec
termination_by xs.length
decreasing_by
  simp only [List.length_drop]
  omega

/-- C2: for every input list of `n` records and every positive batch size
`b`, the batching step shared by the embedding batcher and the bulk
loader produces exactly `ceil(n/b)` batches, every batch except possibly
the last has size `b`, the last batch has size `n mod b` when
`n mod b` is nonzero (and `b` otherwise), and concatenating the batches
in order gives back the input sequence. -/
theorem batch_partition_exact (xs : List α) (b : Nat) (hb : 0 < b) :
    (sliceBatches xs b).length = (xs.length + b - 1) / b ∧
    (sliceBatches xs b).flatten = xs ∧
    (∀ l ∈ (sliceBatches xs b).dropLast, l.length = b) ∧
    (∀ l, (sliceBatches xs b).getLast? = some l →
      l.length = if xs.length % b = 0 then b else xs.length % b) :=
  ⟨sliceBatches_length xs b hb, sliceBatches_flatten xs b hb,
    sliceBatches_dropLast xs b hb, sliceBatches_getLast xs b hb⟩

theorem batch_partition_exact_witness :
    0 < 2 ∧ (sliceBatches ([1, 2, 3, 4, 5] : List Nat) 2).flatten = [1, 2, 3, 4, 5] :=
  ⟨by decide, (batch_partition_exact [1, 2, 3, 4, 5] 2 (by decide)).2.1⟩

/-- A raw record of the arXiv metadata file, as read by
`filter_cs_papers` after `json.loads` succeeds.  The `categories` field
is the whitespace-split list of category tags (the source splits a
string field with `categories.split()`). -/
structure RawPaper where
  id : String
  title : String
  abstract : String
  categories : List String
  authors : String
  update_date : String
deriving DecidableEq, Repr, Inhabited

/-- A filtered record, as built by `filter_cs_papers` (lines 100-107 of
`download_dataset.py`). -/
structure CsPaper where
  id : String
  title : String
  abstract : String
  categories : List String
  authors : String
  update_date : String
deriving DecidableEq, Repr, Inhabited

/-- Python `cat.startswith('cs.')`: the character sequence of `cat`
begins with the characters `c`, `s`, `.`. -/
def startswithCs (cat : String) : Bool :=
  ['c', 's', '.'].isPrefixOf cat.data

/-- Line 98 of `download_dataset.py`:
`any(cat.startswith('cs.') for cat in categories)`. -/
def hasCsCategory (p : RawPaper) : Bool :=
  p.categories.any startswithCs

/-- Field normalization applied to `title` and `abstract` (lines
102-103): `.replace('\n', ' ').strip()`. -/
def normalizeText (s : String) : String :=
  (s.replace "\n" " ").trim

/-- Lines 100-107 of `download_dataset.py`: the `cs_paper` dict built
for a kept record; its category set is reduced to the matching tags. -/
def mkCsPaper (p : RawPaper) : CsPaper :=
  { id := p.id
    title := normalizeText p.title
    abstract := normalizeText p.abstract
    categories := p.categories.filter startswithCs
    authors := p.authors
    update_date := p.update_date }

/-- Line 110 of `download_dataset.py`:
`if max_papers and len(cs_papers) >= max_papers: break`.  Python
truthiness: `max_papers` counts only when it is neither `None` nor `0`. -/
def capReached : Option Nat → Nat → Bool
  | none, _ => false
  | some m, len => decide (m ≠ 0 ∧ m ≤ len)

/-- The read-and-filter loop of `filter_cs_papers` (lines 87-116).  An
input line is `none` when `json.loads` raises (malformed line: skipped,
loop continues) and `some p` when it parses to `p`.  The accumulator
`k` is `len(cs_papers)` so far.  Returns
`(cs_papers, total_processed, lines consumed)`. -/
def filterLoop (maxP : Option Nat) : List (Option RawPaper) → Nat → List CsPaper × Nat × Nat
  | [], _ => ([], 0, 0)
  | none :: rest, k =>
      let r := filterLoop maxP rest k
      (r.1, r.2.1, r.2.2 + 1)
  | some p :: rest, k =>
      if hasCsCategory p then
        if capReached maxP (k + 1) then ([mkCsPaper p], 1, 1)
        else
          let r := filterLoop maxP rest (k + 1)
          (mkCsPaper p :: r.1, r.2.1 + 1, r.2.2 + 1)
      else
        let r := filterLoop maxP rest k
        (r.1, r.2.1 + 1, r.2.2 + 1)

/-- `filter_cs_papers` of `download_dataset.py` (lines 69-124), run on
an abstract source: returns the kept papers, the `total_processed`
counter, and the number of source lines consumed. -/
def filter_cs_papers (lines : List (Option RawPaper)) (max_papers : Option Nat) :
    List CsPaper × Nat × Nat :=
  filterLoop max_papers lines 0

theorem filterLoop_none_cap (lines : List (Option RawPaper)) :
    ∀ k, filterLoop none lines k =
      (((lines.filterMap id).filter hasCsCategory).map mkCsPaper,
        (lines.filterMap id).length, lines.length) := by
  induction lines with
  | nil => intro k; rfl
  | cons hd rest ih =>
      intro k
      cases hd with
      | none =>
          simp only [filterLoop, ih k, List.filterMap_cons]
          rfl
      | some p =>
          by_cases hp : hasCsCategory p
          · simp only [filterLoop, hp, if_true, capReached, Bool.false_eq_true, if_false,
              ih (k + 1), List.filterMap_cons]
            simp [List.filter_cons, hp]
          · simp only [filterLoop, hp, Bool.false_eq_true, if_false, ih k, List.filterMap_cons]
            simp [List.filter_cons, hp]

/-- C3: with no cap, a parseable record is kept iff at least one of its
category tags starts with `cs.`, kept records appear in input order,
and every kept record carries exactly its matching tags — a non-empty
subset of its original tags. -/
theorem filter_completeness (raws : List RawPaper) :
    (filter_cs_papers (raws.map some) none).1 =
      (raws.filter hasCsCategory).map mkCsPaper ∧
    (∀ p : RawPaper, (mkCsPaper p).categories = p.categories.filter startswithCs) ∧
    (∀ p : RawPaper, hasCsCategory p = true → (mkCsPaper p).categories ≠ []) := by
  refine ⟨?_, fun p => rfl, ?_⟩
  · rw [filter_cs_papers, filterLoop_none_cap]
    simp [List.filterMap_map]
  · intro p hp
    simp only [mkCsPaper, ne_eq]
    intro hnil
    rw [List.filter_eq_nil_iff] at hnil
    rw [hasCsCategory, List.any_eq_true] at hp
    obtain ⟨c, hc, hcs⟩ := hp
    exact hnil c hc hcs

theorem filter_completeness_witness :
    (mkCsPaper ⟨"0704.0001", "T", "A", ["cs.AI", "math.CO"], "X", "2023-01-01"⟩).categories ≠ [] :=
  (filter_completeness []).2.2 ⟨"0704.0001", "T", "A", ["cs.AI", "math.CO"], "X", "2023-01-01"⟩
    (by decide)

/-- C8 counterexample: a malformed line is skipped and the run
continues, but it is NOT counted — `total_processed` is incremented
only after `json.loads` succeeds (line 91 of `download_dataset.py`), so
an input of one malformed line and one parseable line reports
`total_processed = 1`, not `2`. -/
theorem malformed_not_counted_counterexample :
    (filter_cs_papers [none, some ⟨"1", "t", "a", ["cs.DB"], "au", "2023"⟩] none).2.1 = 1 ∧
    (filter_cs_papers [some ⟨"1", "t", "a", ["cs.DB"], "au", "2023"⟩] none).2.1 = 1 := by
  constructor <;> rfl

/-- C8 (amended): a malformed (non-parseable) line is skipped and the
loop continues with the remaining lines exactly as if the malformed
line were absent (one more line is consumed, nothing is aborted), but
the malformed line is not counted: `total_processed` equals the number
of successfully parsed lines only. -/
theorem malformed_skipped_not_counted (rest : List (Option RawPaper)) (maxP : Option Nat) :
    (filter_cs_papers (none :: rest) maxP).1 = (filter_cs_papers rest maxP).1 ∧
    (filter_cs_papers (none :: rest) maxP).2.1 = (filter_cs_papers rest maxP).2.1 ∧
    (filter_cs_papers (none :: rest) maxP).2.2 = (filter_cs_papers rest maxP).2.2 + 1 ∧
    (filter_cs_papers rest none).2.1 = (rest.filterMap id).length := by
  refine ⟨rfl, rfl, rfl, ?_⟩
  rw [filter_cs_papers, filterLoop_none_cap]

theorem capReached_hit (m k : Nat) (hk : k < m) (h : m = k + 1) :
    capReached (some m) (k + 1) = true := by
  simp [capReached]
  omega

theorem capReached_miss (m k : Nat) (h : k + 1 < m) :
    capReached (some m) (k + 1) = false := by
  simp [capReached]
  omega

theorem filterLoop_cap (m : Nat) (raws : List RawPaper) :
    ∀ k, k < m →
      (raws.countP hasCsCategory < m - k →
        filterLoop (some m) (raws.map some) k =
          ((raws.filter hasCsCategory).map mkCsPaper, raws.length, raws.length)) ∧
      (m - k ≤ raws.countP hasCsCategory →
        (filterLoop (some m) (raws.map some) k).1.length = m - k ∧
        (filterLoop (some m) (raws.map some) k).2.2 ≤ raws.length ∧
        (raws.take (filterLoop (some m) (raws.map some) k).2.2).countP hasCsCategory = m - k ∧
        (∀ j, j < (filterLoop (some m) (raws.map some) k).2.2 →
          (raws.take j).countP hasCsCategory < m - k)) := by
  induction raws with
  | nil =>
      intro k hk
      refine ⟨fun _ => rfl, fun h => ?_⟩
      simp only [List.countP_nil] at h
      omega
  | cons r rest ih =>
      intro k hk
      by_cases hr : hasCsCategory r
      · have hcnt : (r :: rest).countP hasCsCategory = rest.countP hasCsCategory + 1 :=
          List.countP_cons_of_pos _ _ hr
        by_cases hcap : m = k + 1
        · have hc := capReached_hit m k hk hcap
          have hres : filterLoop (some m) ((r :: rest).map some) k = ([mkCsPaper r], 1, 1) := by
            simp only [List.map_cons, filterLoop, hr, if_true, hc]
          constructor
          · intro h
            rw [hcnt] at h
            omega
          · intro _
            rw [hres]
            refine ⟨by simp; omega, by simp, ?_, ?_⟩
            · show ((r :: rest).take 1).countP hasCsCategory = m - k
              rw [List.take_succ_cons, List.take_zero, List.countP_cons_of_pos _ _ hr,
                List.countP_nil]
              omega
            · intro j hj
              have hj0 : j = 0 := by simpa using hj
              subst hj0
              simp only [List.take_zero, List.countP_nil]
              omega
        · have hk2 : k + 1 < m := by omega
          have hc := capReached_miss m k hk2
          have hres : filterLoop (some m) ((r :: rest).map some) k =
              (mkCsPaper r :: (filterLoop (some m) (rest.map some) (k + 1)).1,
                (filterLoop (some m) (rest.map some) (k + 1)).2.1 + 1,
                (filterLoop (some m) (rest.map some) (k + 1)).2.2 + 1) := by
            simp only [List.map_cons, filterLoop, hr, if_true, hc, Bool.false_eq_true, if_false]
          have ihk := ih (k + 1) hk2
          constructor
          · intro h
            rw [hcnt] at h
            have hrec := ihk.1 (by omega)
            rw [hres, hrec]
            simp [List.filter_cons, hr]
          · intro h
            rw [hcnt] at h
            obtain ⟨h1, h2, h3, h4⟩ := ihk.2 (by omega)
            rw [hres]
            refine ⟨by simp [h1]; omega, by simp; omega, ?_, ?_⟩
            · rw [List.take_succ_cons, List.countP_cons_of_pos _ _ hr, h3]
              omega
            · intro j hj
              cases j with
              | zero =>
                  simp only [List.take_zero, List.countP_nil]
                  omega
              | succ j' =>
                  rw [List.take_succ_cons, List.countP_cons_of_pos _ _ hr]
                  have := h4 j' (by simpa using hj)
                  omega
      · have hcnt : (r :: rest).countP hasCsCategory = rest.countP hasCsCategory :=
          List.countP_cons_of_neg _ _ (by simpa using hr)
        have hres : filterLoop (some m) ((r :: rest).map some) k =
            ((filterLoop (some m) (rest.map some) k).1,
              (filterLoop (some m) (rest.map some) k).2.1 + 1,
              (filterLoop (some m) (rest.map some) k).2.2 + 1) := by
          simp only [List.map_cons, filterLoop, hr, Bool.false_eq_true, if_false]
        have ihk := ih k hk
        constructor
        · intro h
          rw [hcnt] at h
          have hrec := ihk.1 h
          rw [hres, hrec]
          simp [List.filter_cons, hr]
        · intro h
          rw [hcnt] at h
          obtain ⟨h1, h2, h3, h4⟩ := ihk.2 h
          rw [hres]
          refine ⟨by simpa using h1, by simp; omega, ?_, ?_⟩
          · rw [List.take_succ_cons, List.countP_cons_of_neg _ _ (by simpa using hr), h3]
          · intro j hj
            cases j with
            | zero =>
                simp only [List.take_zero, List.countP_nil]
                omega
            | succ j' =>
                rw [List.take_succ_cons, List.countP_cons_of_neg _ _ (by simpa using hr)]
                exact h4 j' (by simpa using hj)

/-- C4 counterexample: the claim quantifies over every integer cap, but
for `max_count = 0` the guard `if max_papers and ...` is falsy in
Python, so the cap is disabled and the output has all matching records
instead of `min(0, matching_count) = 0` — here 2 matching inputs with
cap `0` yield 2 output records, not 0. -/
theorem filter_cap_zero_counterexample :
    (filter_cs_papers [some ⟨"1", "t", "a", ["cs.DB"], "au", "2023"⟩,
        some ⟨"2", "t", "a", ["cs.AI"], "au", "2023"⟩] (some 0)).1.length ≠
      min 0 (([⟨"1", "t", "a", ["cs.DB"], "au", "2023"⟩,
        ⟨"2", "t", "a", ["cs.AI"], "au", "2023"⟩] : List RawPaper).countP hasCsCategory) := by
  decide

/-- C4 (amended): for every positive cap `max_count = m`, the filtered
output has exactly `min(m, matching_count)` records; when fewer than
`m` records match, the whole source is consumed; when at least `m`
match, consumption stops at the line producing the `m`-th match: the
consumed prefix contains exactly `m` matches and every shorter prefix
contains fewer (short-circuit, not filter-all-then-truncate).  A cap of
`0` (like `None`) is falsy in Python and disables capping. -/
theorem filter_cap_short_circuit (raws : List RawPaper) (m : Nat) (hm : 1 ≤ m) :
    (filter_cs_papers (raws.map some) (some m)).1.length =
      min m (raws.countP hasCsCategory) ∧
    (filter_cs_papers (raws.map some) (some m)).2.2 ≤ raws.length ∧
    (raws.countP hasCsCategory < m →
      filter_cs_papers (raws.map some) (some m) =
        ((raws.filter hasCsCategory).map mkCsPaper, raws.length, raws.length)) ∧
    (m ≤ raws.countP hasCsCategory →
      (raws.take (filter_cs_papers (raws.map some) (some m)).2.2).countP hasCsCategory = m ∧
      ∀ j, j < (filter_cs_papers (raws.map some) (some m)).2.2 →
        (raws.take j).countP hasCsCategory < m) := by
  have h := filterLoop_cap m raws 0 (by omega)
  rw [Nat.sub_zero] at h
  rw [filter_cs_papers]
  rcases Nat.lt_or_ge (raws.countP hasCsCategory) m with hlt | hge
  · have heq := h.1 hlt
    refine ⟨?_, ?_, fun _ => heq, fun hge2 => absurd hge2 (by omega)⟩
    · rw [heq]
      simp only [List.length_map]
      rw [← List.countP_eq_length_filter]
      omega
    · rw [heq]
  · obtain ⟨h1, h2, h3, h4⟩ := h.2 hge
    refine ⟨?_, h2, fun hlt2 => absurd hlt2 (by omega), fun _ => ⟨h3, h4⟩⟩
    rw [h1]
    omega

theorem filter_cap_short_circuit_witness :
    1 ≤ 1 ∧
    (filter_cs_papers (([⟨"1", "t", "a", ["cs.DB"], "au", "2023"⟩] :
        List RawPaper).map some) (some 1)).1.length =
      min 1 (([⟨"1", "t", "a", ["cs.DB"], "au", "2023"⟩] : List RawPaper).countP hasCsCategory) :=
  ⟨le_refl 1,
    (filter_cap_short_circuit [⟨"1", "t", "a", ["cs.DB"], "au", "2023"⟩] 1 (by decide)).1⟩

/-- Outcome of one `bulk(...)` call in `bulk_index_papers` (lines
190-206 of `ingest_data.py`): either the helper returns
`(success, failed)` counts, or it raises `BulkIndexError`, or it raises
some other exception — the generic `except Exception` clause also
catches a connection loss to the backend. -/
inductive BulkOutcome where
  | ok (success failed : Nat)
  | bulkIndexError
  | connectionLoss
  | otherException
deriving DecidableEq, Repr

/-- The run-level accumulators `total_indexed` and `total_errors` of
`bulk_index_papers`. -/
structure LoadResult where
  indexed_count : Nat
  error_count : Nat
deriving DecidableEq, Repr

/-- The batch loop of `bulk_index_papers` (lines 187-206): for the
`i`-th batch, `es i` is the outcome of the bulk call; `ok` adds both
reported counts, every caught exception adds the whole batch size to
the error tally; the loop body never breaks or returns early.  Returns
the accumulated `LoadResult` and the list of batches submitted to the
backend. -/
def bulkLoop (es : Nat → BulkOutcome) : List (List α) → Nat → LoadResult × List (List α)
  | [], _ => (⟨0, 0⟩, [])
  | batch :: rest, i =>
      let r := bulkLoop es rest (i + 1)
      match es i with
      | .ok s f => (⟨s + r.1.indexed_count, f + r.1.error_count⟩, batch :: r.2)
      | .bulkIndexError => (⟨r.1.indexed_count, batch.length + r.1.error_count⟩, batch :: r.2)
      | .connectionLoss => (⟨r.1.indexed_count, batch.length + r.1.error_count⟩, batch :: r.2)
      | .otherException => (⟨r.1.indexed_count, batch.length + r.1.error_count⟩, batch :: r.2)

/-- `bulk_index_papers` of `ingest_data.py` (lines 163-213), with the
Elasticsearch bulk helper abstracted as the per-batch outcome oracle
`es`. -/
def bulk_index_papers (es : Nat → BulkOutcome) (papers : List α) (batch_size : Nat) :
    LoadResult × List (List α) :=
  bulkLoop es (sliceBatches papers batch_size) 0

/-- The contract of the Elasticsearch bulk helper with
`stats_only=True, raise_on_error=False`: when it returns
`(success, failed)`, the two counts cover every submitted action of the
batch. -/
def reportsAllActions : BulkOutcome → Nat → Bool
  | .ok s f, len => s + f == len
  | _, _ => true

/-- Error tally contributed by one batch: the reported failure count on
a normal return, the whole batch size when the call raised. -/
def errContribution : BulkOutcome → Nat → Nat
  | .ok _ f, _ => f
  | _, len => len

theorem bulkLoop_trace (es : Nat → BulkOutcome) (bs : List (List α)) :
    ∀ i, (bulkLoop es bs i).2 = bs := by
  induction bs with
  | nil => intro i; rfl
  | cons batch rest ih =>
      intro i
      simp only [bulkLoop]
      cases es i <;> simp [ih (i + 1)]

theorem bulkLoop_accounting (es : Nat → BulkOutcome) (bs : List (List α)) :
    ∀ i0, (∀ j, j < bs.length → reportsAllActions (es (i0 + j)) ((bs.getD j []).length) = true) →
      (bulkLoop es bs i0).1.indexed_count + (bulkLoop es bs i0).1.error_count =
        (bs.map List.length).sum := by
  induction bs with
  | nil => intro i0 _; rfl
  | cons batch rest ih =>
      intro i0 hc
      have hhead := hc 0 (by simp)
      have htail : ∀ j, j < rest.length →
          reportsAllActions (es (i0 + 1 + j)) ((rest.getD j []).length) = true := by
        intro j hj
        have := hc (j + 1) (by simp; omega)
        simpa [Nat.add_assoc, Nat.add_comm 1 j] using this
      have hrec := ih (i0 + 1) htail
      simp only [bulkLoop, List.map_cons, List.sum_cons]
      cases hes : es i0 with
      | ok s f =>
          rw [Nat.add_zero] at hhead
          rw [hes] at hhead
          simp only [reportsAllActions, beq_iff_eq] at hhead
          simp only [List.getD_cons_zero] at hhead
          simp only []
          omega
      | bulkIndexError => simp only []; omega
      | connectionLoss => simp only []; omega
      | otherException => simp only []; omega

theorem bulkLoop_error_lower_bound (es : Nat → BulkOutcome) (bs : List (List α)) :
    ∀ i0 j, j < bs.length →
      errContribution (es (i0 + j)) ((bs.getD j []).length) ≤ (bulkLoop es bs i0).1.error_count := by
  induction bs with
  | nil => intro i0 j hj; simp at hj
  | cons batch rest ih =>
      intro i0 j hj
      simp only [bulkLoop]
      cases j with
      | zero =>
          simp only [Nat.add_zero, List.getD_cons_zero]
          cases hes : es i0 <;> simp [errContribution, hes]
      | succ j' =>
          have hrec := ih (i0 + 1) j' (by simpa using hj)
          have hidx : i0 + (j' + 1) = i0 + 1 + j' := by omega
          rw [hidx]
          simp only [List.getD_cons_succ]
          cases es i0 <;> simp only [] <;> omega

theorem bulkLoop_errors_formula (es : Nat → BulkOutcome) (bs : List (List α)) :
    ∀ i0, (bulkLoop es bs i0).1.error_count =
      ((bs.enumFrom i0).map (fun p => errContribution (es p.1) p.2.length)).sum := by
  induction bs with
  | nil => intro i0; rfl
  | cons batch rest ih =>
      intro i0
      simp only [bulkLoop, List.enumFrom, List.map_cons, List.sum_cons]
      cases es i0 <;> simp [errContribution, ih (i0 + 1)]

/-- C1: for every run of the bulk loader, whatever mix of per-batch
outcomes occurs — normal returns with per-document failures (0%, 50%,
or 100% of the batch), a `BulkIndexError`, or any other caught
exception (which adds the whole batch size to the error tally) —
the final counts satisfy
`indexed_count + error_count = total submitted records`, given the bulk
helper contract that a normal return's two counts cover the batch. -/
theorem load_accounting_invariant (es : Nat → BulkOutcome) (papers : List α) (b : Nat)
    (hb : 0 < b)
    (hes : ∀ j, j < (sliceBatches papers b).length →
      reportsAllActions (es j) (((sliceBatches papers b).getD j []).length) = true) :
    (bulk_index_papers es papers b).1.indexed_count +
      (bulk_index_papers es papers b).1.error_count = papers.length := by
  rw [bulk_index_papers]
  have h := bulkLoop_accounting es (sliceBatches papers b) 0
    (fun j hj => by simpa using hes j hj)
  rw [h, ← List.length_flatten, sliceBatches_flatten papers b hb]

theorem load_accounting_invariant_witness :
    (bulk_index_papers
        (fun i => if i = 0 then BulkOutcome.ok 2 0
          else if i = 1 then BulkOutcome.ok 1 1 else BulkOutcome.bulkIndexError)
        ([0, 1, 2, 3, 4, 5] : List Nat) 2).1.indexed_count +
      (bulk_index_papers
        (fun i => if i = 0 then BulkOutcome.ok 2 0
          else if i = 1 then BulkOutcome.ok 1 1 else BulkOutcome.bulkIndexError)
        ([0, 1, 2, 3, 4, 5] : List Nat) 2).1.error_count = 6 :=
  load_accounting_invariant _ _ _ (by decide) (by decide)

/-- C7: a batch whose documents partly or fully fail — a normal return
with failure counts, or a bulk call that raises — never aborts the run:
every batch of the partition is submitted to the backend regardless of
the outcomes of the other batches, and each batch adds its failure
count (or, when the call raised, its whole size) to the run's error
tally. -/
theorem batch_failures_do_not_abort (es : Nat → BulkOutcome) (papers : List α) (b : Nat) :
    (bulk_index_papers es papers b).2 = sliceBatches papers b ∧
    (bulk_index_papers es papers b).1.error_count =
      (((sliceBatches papers b).enumFrom 0).map
        (fun p => errContribution (es p.1) p.2.length)).sum :=
  ⟨bulkLoop_trace es (sliceBatches papers b) 0,
    bulkLoop_errors_formula es (sliceBatches papers b) 0⟩

/-- C6 counterexample: a connection loss raised by the bulk call for
the first batch is caught by the generic `except Exception` clause
(lines 204-206 of `ingest_data.py`), so the loader does NOT abort: the
second batch is still submitted (the trace has both batches) and its
documents are even indexed (`indexed_count = 2`), while the claim says
the remaining batches are aborted. -/
theorem connection_loss_not_fatal_counterexample :
    (bulk_index_papers
        (fun i => if i = 0 then BulkOutcome.connectionLoss else BulkOutcome.ok 2 0)
        ([10, 11, 12, 13] : List Nat) 2).2 = [[10, 11], [12, 13]] ∧
    (bulk_index_papers
        (fun i => if i = 0 then BulkOutcome.connectionLoss else BulkOutcome.ok 2 0)
        ([10, 11, 12, 13] : List Nat) 2).1 = ⟨2, 2⟩ := by
  constructor <;> rfl

/-- C6 (amended): a connection-loss exception raised by a bulk call is
handled like any other exception: the failing batch's size is added to
the error tally, and the loader continues — every remaining batch is
still submitted; the run is not aborted. -/
theorem connection_loss_continues (es : Nat → BulkOutcome) (papers : List α) (b i : Nat)
    (hi : i < (sliceBatches papers b).length)
    (hconn : es i = BulkOutcome.connectionLoss) :
    (bulk_index_papers es papers b).2 = sliceBatches papers b ∧
    ((sliceBatches papers b).getD i []).length ≤
      (bulk_index_papers es papers b).1.error_count := by
  refine ⟨bulkLoop_trace es (sliceBatches papers b) 0, ?_⟩
  have h := bulkLoop_error_lower_bound es (sliceBatches papers b) 0 i hi
  rw [Nat.zero_add, hconn] at h
  exact h

theorem connection_loss_continues_witness :
    (bulk_index_papers (fun _ => BulkOutcome.connectionLoss) ([7, 8, 9] : List Nat) 2).2 =
      sliceBatches ([7, 8, 9] : List Nat) 2 ∧
    ((sliceBatches ([7, 8, 9] : List Nat) 2).getD 0 []).length ≤
      (bulk_index_papers (fun _ => BulkOutcome.connectionLoss) ([7, 8, 9] : List Nat) 2).1.error_count :=
  connection_loss_continues _ _ _ 0 (by decide) rfl

/-- The `zip(papers, all_embeddings)` attachment loop of
`generate_embeddings` (lines 91-93 of `generate_embeddings.py`): the
`i`-th paper gets the `i`-th vector; `zip` stops at the shorter list,
so papers beyond the number of returned vectors keep no
`abstract_vector` key (`none`), and surplus vectors are dropped. -/
def attachVectors : List CsPaper → List V → List (CsPaper × Option V)
  | [], _ => []
  | p :: ps, [] => (p, none) :: attachVectors ps []
  | p :: ps, v :: vs => (p, some v) :: attachVectors ps vs

/-- `generate_embeddings` of `generate_embeddings.py` (lines 48-95),
with the sentence-transformer model abstracted as the oracle `encode`:
abstracts are extracted, batched, encoded batch by batch (the results
extended into one list, with no length check anywhere), and the
resulting vectors attached positionally to the papers. -/
def generate_embeddings (encode : List String → List V) (papers : List CsPaper)
    (batch_size : Nat) : List (CsPaper × Option V) :=
  attachVectors papers
    (((sliceBatches (papers.map CsPaper.abstract) batch_size).map encode).flatten)

theorem attachVectors_fst (ps : List CsPaper) :
    ∀ vs : List V, (attachVectors ps vs).map Prod.fst = ps := by
  induction ps with
  | nil => intro vs; cases vs <;> rfl
  | cons p ps ih =>
      intro vs
      cases vs with
      | nil => simp [attachVectors, ih]
      | cons v vs => simp [attachVectors, ih]

theorem attachVectors_snd (ps : List CsPaper) :
    ∀ vs : List V, (attachVectors ps vs).map Prod.snd =
      (vs.take ps.length).map some ++ List.replicate (ps.length - vs.length) none := by
  induction ps with
  | nil => intro vs; cases vs <;> simp [attachVectors]
  | cons p ps ih =>
      intro vs
      cases vs with
      | nil =>
          simp only [attachVectors, List.map_cons, ih, List.take_nil, List.map_nil,
            List.nil_append, List.length_nil, Nat.sub_zero, List.length_cons,
            List.replicate_succ]
      | cons v vs =>
          simp only [attachVectors, List.map_cons, ih, List.length_cons,
            List.take_succ_cons, Nat.succ_sub_succ, List.cons_append]

/-- C5 counterexample: there is no length check between a batch and the
vectors the service returns for it — for two papers in one batch where
the service returns a single vector, `generate_embeddings` raises no
error and silently attaches the vector to the first paper only, leaving
the second paper without a vector. -/
theorem embedding_mismatch_counterexample :
    (generate_embeddings (V := Nat) (fun _ => [7])
        [⟨"1", "t", "a1", ["cs.AI"], "au", "2023"⟩,
          ⟨"2", "t", "a2", ["cs.LG"], "au", "2023"⟩] 2).map Prod.snd = [some 7, none] := by
  rfl

/-- C5 (amended): `generate_embeddings` attaches the returned vectors
to the papers positionally with no length check: the paper list is
unchanged, paper `i` gets vector `i` of the concatenated per-batch
results, papers beyond the number of returned vectors are left without
a vector and no error is raised; only when the service returns exactly
one vector per input text in every batch does every paper receive a
vector. -/
theorem embedding_attachment_positional (encode : List String → List V)
    (papers : List CsPaper) (b : Nat) :
    (generate_embeddings encode papers b).map Prod.fst = papers ∧
    (generate_embeddings encode papers b).map Prod.snd =
      ((((sliceBatches (papers.map CsPaper.abstract) b).map encode).flatten).take
          papers.length).map some ++
        List.replicate
          (papers.length -
            (((sliceBatches (papers.map CsPaper.abstract) b).map encode).flatten).length)
          none ∧
    (0 < b →
      (∀ batch ∈ sliceBatches (papers.map CsPaper.abstract) b,
        (encode batch).length = batch.length) →
      ∀ pr ∈ generate_embeddings encode papers b, pr.2.isSome = true) := by
  refine ⟨attachVectors_fst papers _, attachVectors_snd papers _, ?_⟩
  intro hb hlen pr hpr
  have hret : (((sliceBatches (papers.map CsPaper.abstract) b).map encode).flatten).length =
      papers.length := by
    rw [List.length_flatten, List.map_map]
    have hcongr : (sliceBatches (papers.map CsPaper.abstract) b).map (List.length ∘ encode) =
        (sliceBatches (papers.map CsPaper.abstract) b).map List.length :=
      List.map_congr_left (fun batch hbatch => hlen batch hbatch)
    rw [hcongr, ← List.length_flatten,
      sliceBatches_flatten (papers.map CsPaper.abstract) b hb, List.length_map]
  have hsnd : (generate_embeddings encode papers b).map Prod.snd =
      ((((sliceBatches (papers.map CsPaper.abstract) b).map encode).flatten).take
          papers.length).map some ++
        List.replicate
          (papers.length -
            (((sliceBatches (papers.map CsPaper.abstract) b).map encode).flatten).length)
          none :=
    attachVectors_snd papers _
  rw [hret, Nat.sub_self, List.replicate_zero, List.append_nil] at hsnd
  have hmem : pr.2 ∈ (generate_embeddings encode papers b).map Prod.snd :=
    List.mem_map_of_mem Prod.snd hpr
  rw [hsnd] at hmem
  obtain ⟨v, _, hv⟩ := List.mem_map.mp hmem
  rw [← hv]
  rfl

theorem embedding_attachment_positional_witness :
    ∀ pr ∈ generate_embeddings (V := Nat) (fun l => l.map (fun _ => 0))
        [⟨"1", "t", "a1", ["cs.AI"], "au", "2023"⟩,
          ⟨"2", "t", "a2", ["cs.LG"], "au", "2023"⟩] 1, pr.2.isSome = true :=
  (embedding_attachment_positional (fun l => l.map (fun _ => 0))
      [⟨"1", "t", "a1", ["cs.AI"], "au", "2023"⟩,
        ⟨"2", "t", "a2", ["cs.LG"], "au", "2023"⟩] 1).2.2 (by decide)
    (by
      intro batch hbatch
      simp)

/-- Observable result of running one stage's `main()` as a process:
the process exit code, the log messages issued, and whether the stage
wrote its output artifact. -/
structure MainRun where
  exitCode : Nat
  messages : List String
  wroteOutput : Bool
deriving DecidableEq, Repr

/-- `main` of `generate_embeddings.py` (lines 115-150), reduced to the
upstream-artifact guard: when the input file is missing it logs the
error and the remediation hint and returns from `main` — the script
then ends normally, so the process exit code is `0`; nothing is
written.  When the input exists the stage proceeds and writes its
output (the details of the happy path are irrelevant to the guard). -/
def generateEmbeddingsMain (inputExists : Bool) (inputFile : String) : MainRun :=
  if inputExists then
    { exitCode := 0, messages := [], wroteOutput := true }
  else
    { exitCode := 0
      messages := ["Input file not found: " ++ inputFile,
        "Please run download_dataset.py first"]
      wroteOutput := false }

/-- `main` of `ingest_data.py` (lines 244-277), reduced to the same
upstream-artifact guard (lines 253-257). -/
def ingestDataMain (inputExists : Bool) (inputFile : String) : MainRun :=
  if inputExists then
    { exitCode := 0, messages := [], wroteOutput := true }
  else
    { exitCode := 0
      messages := ["Input file not found: " ++ inputFile,
        "Please run generate_embeddings.py first"]
      wroteOutput := false }

/-- C9 counterexample: with the upstream artifact missing, both stages
merely `return` from `main`, so the process exits with code `0` — not
the non-zero exit code the claim requires. -/
theorem missing_artifact_exit_zero_counterexample :
    (generateEmbeddingsMain false "./data/cs_papers.json").exitCode = 0 ∧
    (ingestDataMain false "./data/cs_papers_with_embeddings.json").exitCode = 0 :=
  ⟨rfl, rfl⟩

/-- C9 (amended): a stage invoked with its required upstream artifact
missing reports the specific remediation message naming the stage to
run first, writes no partial state, and returns early — but the process
exit code is `0`, not non-zero. -/
theorem missing_artifact_behavior (f : String) :
    generateEmbeddingsMain false f =
      ⟨0, ["Input file not found: " ++ f, "Please run download_dataset.py first"], false⟩ ∧
    ingestDataMain false f =
      ⟨0, ["Input file not found: " ++ f, "Please run generate_embeddings.py first"], false⟩ :=
  ⟨rfl, rfl⟩

/-- The restore request body built by `restore_snapshot` of
`setup_snapshots.py` (lines 243-248). -/
structure RestoreBody where
  indices : Option String
  rename_pattern : Option String
  rename_replacement : Option String
deriving DecidableEq, Repr

/-- Python truthiness of an optional string argument: `None` and the
empty string are falsy. -/
def pyTruthyStr : Option String → Bool
  | none => false
  | some s => !s.isEmpty

/-- Python truthiness of the optional `indices` list argument: `None`
and the empty list are falsy. -/
def pyTruthyList : Option (List String) → Bool
  | none => false
  | some l => !l.isEmpty

/-- `restore_snapshot` of `setup_snapshots.py` (lines 217-262), reduced
to the request body it sends: `indices` is joined with commas when
truthy, and the two rename fields are set only under
`if rename_pattern and rename_replacement:` (line 246) — both or
neither. -/
def restore_snapshot (indices : Option (List String))
    (rename_pattern rename_replacement : Option String) : RestoreBody :=
  { indices :=
      if pyTruthyList indices then some (String.intercalate "," (indices.getD [])) else none
    rename_pattern :=
      if pyTruthyStr rename_pattern && pyTruthyStr rename_replacement then rename_pattern
      else none
    rename_replacement :=
      if pyTruthyStr rename_pattern && pyTruthyStr rename_replacement then rename_replacement
      else none }

/-- C10: the restore request carries both rename fields iff both
`rename_pattern` and `rename_replacement` are provided (non-empty,
non-`None`); when exactly one of them is provided the request carries
no rename field at all, so the restore targets the original index
name. -/
theorem restore_rename_fields (indices : Option (List String))
    (pat repl : Option String) :
    (((restore_snapshot indices pat repl).rename_pattern.isSome = true ∧
        (restore_snapshot indices pat repl).rename_replacement.isSome = true) ↔
      (pyTruthyStr pat = true ∧ pyTruthyStr repl = true)) ∧
    (pyTruthyStr pat ≠ pyTruthyStr repl →
      (restore_snapshot indices pat repl).rename_pattern = none ∧
      (restore_snapshot indices pat repl).rename_replacement = none) := by
  cases hp : pyTruthyStr pat <;> cases hr : pyTruthyStr repl
  · have h1 : (restore_snapshot indices pat repl).rename_pattern = none := by
      simp [restore_snapshot, hp, hr]
    have h2 : (restore_snapshot indices pat repl).rename_replacement = none := by
      simp [restore_snapshot, hp, hr]
    refine ⟨?_, fun _ => ⟨h1, h2⟩⟩
    rw [h1, h2]
    simp
  · have h1 : (restore_snapshot indices pat repl).rename_pattern = none := by
      simp [restore_snapshot, hp, hr]
    have h2 : (restore_snapshot indices pat repl).rename_replacement = none := by
      simp [restore_snapshot, hp, hr]
    refine ⟨?_, fun _ => ⟨h1, h2⟩⟩
    rw [h1, h2]
    simp [hp]
  · have h1 : (restore_snapshot indices pat repl).rename_pattern = none := by
      simp [restore_snapshot, hp, hr]
    have h2 : (restore_snapshot indices pat repl).rename_replacement = none := by
      simp [restore_snapshot, hp, hr]
    refine ⟨?_, fun _ => ⟨h1, h2⟩⟩
    rw [h1, h2]
    simp [hr]
  · have h1 : (restore_snapshot indices pat repl).rename_pattern = pat := by
      simp [restore_snapshot, hp, hr]
    have h2 : (restore_snapshot indices pat repl).rename_replacement = repl := by
      simp [restore_snapshot, hp, hr]
    refine ⟨?_, fun hne => ?_⟩
    · rw [h1, h2]
      constructor
      · intro _
        exact ⟨rfl, rfl⟩
      · intro _
        constructor
        · cases pat with
          | none => simp [pyTruthyStr] at hp
          | some s => rfl
        · cases repl with
          | none => simp [pyTruthyStr] at hr
          | some t => rfl
    · exact absurd rfl hne

theorem restore_rename_fields_witness :
    (restore_snapshot none (some "old_(.+)") none).rename_pattern = none ∧
    (restore_snapshot none (some "old_(.+)") none).rename_replacement = none :=
  (restore_rename_fields none (some "old_(.+)") none).2 (by decide)
